import Mathlib

/-!
Shallow embedding of the kubeval orchestration layer (src/main.go).

The embedding covers: the per-result classifier and running success flag
of `logResults`, the recursive directory walk and multi-error accumulation
of `aggregateFiles`, the early-exit policy of `earlyExit`, and the
per-source read → validate → classify loop of `RootCmd.Run`, together with
the final exit status.  The external validator, the filesystem and file
reading are modelled as explicit function parameters of a `World`; the
schema cache is modelled by its identity (the pointer passed to every
validator call), since its internals are an external collaborator.
-/

namespace Kubeval

/-- One classified document outcome, as returned by the external validator
(`kubeval.ValidationResult`): file name, document kind (empty string means
no kind), ordered error descriptions, and the validated-against-schema
flag. -/
structure ValidationResult where
  fileName : String
  kind : String
  errors : List String
  validatedAgainstSchema : Bool
  deriving Repr, DecidableEq

/-- The four outcome categories of the classifier in `logResults`. -/
inductive Category where
  | INVALID
  | EMPTY_DOCUMENT
  | SKIPPED_NO_SCHEMA
  | VALID
  deriving Repr, DecidableEq

/-- The if/else-if chain of `logResults` (src/main.go lines 115-127), as a
classifier from one result to its category. -/
def classify (r : ValidationResult) : Category :=
  if r.errors.length > 0 then Category.INVALID
  else if r.kind = "" then Category.EMPTY_DOCUMENT
  else if !r.validatedAgainstSchema then Category.SKIPPED_NO_SCHEMA
  else Category.VALID

/-- Effect of one loop iteration of `logResults` on the running success
flag: only the non-empty-errors branch assigns `success = false`. -/
def logStep (success : Bool) (result : ValidationResult) : Bool :=
  if result.errors.length > 0 then false else success

/-- `logResults` (src/main.go lines 113-130): folds every result through
the classifier branch, threading the running success flag. -/
def logResults (results : List ValidationResult) (success : Bool) : Bool :=
  results.foldl logStep success

/-- A filesystem path, as a list of components. -/
abbrev Path := List String

/-- `strings.HasSuffix` from the Go standard library, on the characters of
the strings: an exact, case-sensitive suffix match. -/
def hasSuffix (s post : String) : Bool := List.isSuffixOf post.data s.data

/-- A filesystem tree entry seen by `filepath.Walk`: a regular file, a
directory with ordered entries, or an entry whose visit reports an error
(the walk callback is then invoked with a non-nil error). -/
inductive FSEntry where
  | file (name : String)
  | dir (name : String) (entries : List FSEntry)
  | badEntry (name : String) (msg : String)

/-- The recursive walk of `filepath.Walk` with the callback of
`aggregateFiles` (src/main.go lines 138-146): collect every regular file
whose name ends with the suffix `.yaml`; the first error returned by the
callback aborts the remaining traversal of this walk, keeping the files
appended before the error. -/
def walkEntries (dirPath : Path) : List FSEntry → List Path × Option String
  | [] => ([], none)
  | FSEntry.file nm :: rest =>
      let r := walkEntries dirPath rest
      if hasSuffix nm (".yaml") then ((dirPath ++ [nm]) :: r.1, r.2) else r
  | FSEntry.badEntry _ msg :: _ => ([], some msg)
  | FSEntry.dir nm entries :: rest =>
      match walkEntries (dirPath ++ [nm]) entries with
      | (found, some msg) => (found, some msg)
      | (found, none) =>
          let r := walkEntries dirPath rest
          (found ++ r.1, r.2)
  termination_by es => sizeOf es

/-- One `filepath.Walk(directory, ...)` invocation of `aggregateFiles`: a
missing root yields an error, a regular-file root is itself tested against
the suffix, a directory root is walked recursively. -/
def walkDirectory (fs : String → Option FSEntry) (d : String) :
    List Path × Option String :=
  match fs d with
  | none => ([], some ("lstat " ++ d ++ ": no such file or directory"))
  | some (FSEntry.file nm) =>
      if hasSuffix nm (".yaml") then ([[d]], none) else ([], none)
  | some (FSEntry.badEntry _ msg) => ([], some msg)
  | some (FSEntry.dir _ entries) => walkEntries [d] entries

/-- Modelled from the spec: the ErrorAccumulator's append operation (the
`multierror.Append` collaborator is not under src/) — "an ordered,
append-only collection of independently raised errors". -/
def accAppend (acc : List String) (e : String) : List String := acc ++ [e]

/-- Modelled from the spec: the ErrorAccumulator's final projection (the
`ErrorOrNil` collaborator is not under src/) — "zero accumulated errors
⇒ returns no error; one or more ⇒ returns a single combined value". -/
def errorOrNil (errs : List String) : Option (List String) :=
  if errs.isEmpty then none else some errs

/-- Modelled from the spec: the item-by-item part of the combined error's
textual representation, one line per accumulated message, in accumulation
order. -/
def renderList : List String → String
  | [] => ""
  | m :: rest => "\t* " ++ m ++ "\n" ++ renderList rest

/-- Modelled from the spec: the combined error's textual representation —
a count header followed by every original message, verbatim, in order. -/
def renderAggregate (errs : List String) : String :=
  (toString errs.length) ++ " error(s) occurred:\n" ++ renderList errs

/-- `aggregateFiles` (src/main.go lines 132-153): start from a copy of the
explicit arguments, walk each directory of the configured list in order,
append the files each walk found, and accumulate each walk's error. -/
def aggregateFiles (fs : String → Option FSEntry) (args : List Path)
    (directories : List String) : List Path × List String :=
  directories.foldl
    (fun acc d =>
      match walkDirectory fs d with
      | (found, none) => (acc.1 ++ found, acc.2)
      | (found, some msg) => (acc.1 ++ found, accAppend acc.2 msg))
    (args, [])

/-- The configuration fields the orchestration core reads:
`config.ExitOnError` and `config.FileName`. -/
structure Config where
  exitOnError : Bool
  fileName : String

/-- The external collaborators of the run: the filesystem tree seen by the
directory walks, file reading (`none` models a read failure), and the
external validator `kubeval.ValidateWithCache`, receiving the cache
identity, the raw contents and the current file-name context. -/
structure World where
  fs : String → Option FSEntry
  readFile : Path → Option String
  validate : Nat → String → Path → Except String (List ValidationResult)

/-- Observable events of a run: construction of the schema cache, a source
read failure, a validator invocation failure, and a completed validator
invocation with its results. -/
inductive Event where
  | allocCache (cacheId : Nat)
  | readFail (file : Path)
  | invokeFail (file : Path) (msg : String)
  | validated (cacheId : Nat) (file : Path) (results : List ValidationResult)
  deriving Repr, DecidableEq

/-- Outcome of a run: an immediate `os.Exit` with a code, or completion of
the loop with the final success flag (the process then exits 0 on success
and 1 otherwise). Both carry the event history. -/
inductive RunResult where
  | exitedEarly (code : Nat) (events : List Event)
  | completed (success : Bool) (events : List Event)
  deriving Repr, DecidableEq

/-- Exit code of the process: the code of an immediate exit, else 0 on a
true final success flag and 1 on a false one (src/main.go lines 107-109). -/
def RunResult.exitCode : RunResult → Nat
  | RunResult.exitedEarly code _ => code
  | RunResult.completed success _ => if success then 0 else 1

/-- The event history of a run outcome. -/
def RunResult.trace : RunResult → List Event
  | RunResult.exitedEarly _ tr => tr
  | RunResult.completed _ tr => tr

/-- The final success verdict: false whenever the run exited early (that
only happens on a failure), else the final success flag. -/
def RunResult.verdict : RunResult → Bool
  | RunResult.exitedEarly _ _ => false
  | RunResult.completed s _ => s

/-- Prepend an event to a run outcome's history. -/
def RunResult.consTrace (e : Event) : RunResult → RunResult
  | RunResult.exitedEarly c tr => RunResult.exitedEarly c (e :: tr)
  | RunResult.completed s tr => RunResult.completed s (e :: tr)

/-- The per-file loop of `RootCmd.Run` (src/main.go lines 87-105): read
each file — on failure log, apply `earlyExit` (exit 1 when
`config.ExitOnError`), clear success and continue; then invoke the
validator — on failure likewise; on success fold the results through
`logResults`. -/
def runLoop (w : World) (exitOnError : Bool) (cacheId : Nat) :
    List Path → Bool → RunResult
  | [], success => RunResult.completed success []
  | f :: rest, success =>
      match w.readFile f with
      | none =>
          if exitOnError then RunResult.exitedEarly 1 [Event.readFail f]
          else (runLoop w exitOnError cacheId rest false).consTrace
            (Event.readFail f)
      | some contents =>
          match w.validate cacheId contents f with
          | Except.error msg =>
              if exitOnError then
                RunResult.exitedEarly 1 [Event.invokeFail f msg]
              else (runLoop w exitOnError cacheId rest false).consTrace
                (Event.invokeFail f msg)
          | Except.ok results =>
              (runLoop w exitOnError cacheId rest
                (logResults results success)).consTrace
                (Event.validated cacheId f results)

/-- The file-arguments path of `RootCmd.Run` (src/main.go lines 76-109):
when neither file arguments nor directories are supplied, log the usage
error and exit 1 before anything else (lines 77-80); otherwise construct
one schema cache, resolve the file list with `aggregateFiles` (a non-nil
combined error clears the success flag), run the per-file loop, and exit 1
when the final flag is false. -/
def run (w : World) (cfg : Config) (args : List Path)
    (directories : List String) : RunResult :=
  if args.length < 1 ∧ directories.length < 1 then
    RunResult.exitedEarly 1 []
  else
    let cacheId := 0
    match aggregateFiles w.fs args directories with
    | (files, errs) =>
        (runLoop w cfg.exitOnError cacheId files
          (errorOrNil errs).isNone).consTrace (Event.allocCache cacheId)

/-- The stdin path of `RootCmd.Run` (src/main.go lines 62-75): construct
one schema cache, validate the buffered input once with the configured
file name; an invocation error exits 1 immediately, else the results are
folded through `logResults` starting from a true flag. -/
def runStdin (w : World) (cfg : Config) (input : String) : RunResult :=
  let cacheId := 0
  match w.validate cacheId input [cfg.fileName] with
  | Except.error msg =>
      RunResult.exitedEarly 1
        [Event.allocCache cacheId, Event.invokeFail [cfg.fileName] msg]
  | Except.ok rs =>
      RunResult.completed (logResults rs true)
        [Event.allocCache cacheId, Event.validated cacheId [cfg.fileName] rs]

/-- Recognises cache-construction events. -/
def eventIsAlloc : Event → Bool
  | Event.allocCache _ => true
  | _ => false

/-- Recognises source read failures. -/
def eventIsReadFail : Event → Bool
  | Event.readFail _ => true
  | _ => false

/-- Recognises validator invocation failures. -/
def eventIsInvokeFail : Event → Bool
  | Event.invokeFail _ _ => true
  | _ => false

/-- Recognises a validator invocation some of whose documents carried
schema errors. -/
def eventHasDocErrors : Event → Bool
  | Event.validated _ _ rs => rs.any (fun r => !r.errors.isEmpty)
  | _ => false

/-- Some source of the run could not be read. -/
def hasReadFailure (tr : List Event) : Bool := tr.any eventIsReadFail

/-- Some validator invocation of the run itself failed. -/
def hasInvokeFailure (tr : List Event) : Bool := tr.any eventIsInvokeFail

/-- Some document of some source of the run had one or more schema
errors. -/
def hasDocumentErrors (tr : List Event) : Bool := tr.any eventHasDocErrors

/-- Modelled from the spec (refinement comparison for the walk): "a
recursive filesystem walk collecting every regular file whose name ends
with the literal suffix `.yaml`", over the whole tree, in traversal
order. -/
def specYamlFiles (dirPath : Path) : List FSEntry → List Path
  | [] => []
  | FSEntry.file nm :: rest =>
      if hasSuffix nm (".yaml") then
        (dirPath ++ [nm]) :: specYamlFiles dirPath rest
      else specYamlFiles dirPath rest
  | FSEntry.badEntry _ _ :: rest => specYamlFiles dirPath rest
  | FSEntry.dir nm entries :: rest =>
      specYamlFiles (dirPath ++ [nm]) entries ++ specYamlFiles dirPath rest
  termination_by es => sizeOf es

/-- Whether a tree contains no erroring entry. -/
def cleanEntries : List FSEntry → Bool
  | [] => true
  | FSEntry.file _ :: rest => cleanEntries rest
  | FSEntry.badEntry _ _ :: _ => false
  | FSEntry.dir _ entries :: rest => cleanEntries entries && cleanEntries rest
  termination_by es => sizeOf es

/-- A concrete world whose only configured directory fails to resolve and
where every file read succeeds; used to evaluate the run at the point where
source resolution alone fails. -/
def badDirWorld : World where
  fs := fun _ => none
  readFile := fun _ => some ("")
  validate := fun _ _ _ => Except.ok []

/-- A concrete configuration with the early-exit flag off. -/
def plainConfig : Config where
  exitOnError := false
  fileName := ""

/-- A concrete valid result with no errors. -/
def sampleValid : ValidationResult where
  fileName := "a.yaml"
  kind := "Pod"
  errors := []
  validatedAgainstSchema := true

/-- A concrete invalid result carrying one error description. -/
def sampleInvalid : ValidationResult where
  fileName := "a.yaml"
  kind := "Pod"
  errors := ["spec is required"]
  validatedAgainstSchema := true

/-- A concrete world where every file read fails. -/
def readFailWorld : World where
  fs := fun _ => none
  readFile := fun _ => none
  validate := fun _ _ _ => Except.ok []

/-- A concrete world with one resolvable directory holding one `.yaml`
file, every other directory unresolvable, and where reading and
validation always succeed. -/
def goodBadWorld : World where
  fs := fun d =>
    if d = "good" then some (FSEntry.dir d [FSEntry.file ("a.yaml")])
    else none
  readFile := fun _ => some ("")
  validate := fun _ _ _ => Except.ok []

/-- A concrete world where every file reads and validates successfully,
yielding one valid result. -/
def okWorld : World where
  fs := fun _ => none
  readFile := fun _ => some ("")
  validate := fun _ _ _ => Except.ok [sampleValid]

lemma consTrace_exitCode (e : Event) (r : RunResult) :
    (r.consTrace e).exitCode = r.exitCode := by
  cases r <;> rfl

lemma consTrace_trace (e : Event) (r : RunResult) :
    (r.consTrace e).trace = e :: r.trace := by
  cases r <;> rfl

lemma consTrace_verdict (e : Event) (r : RunResult) :
    (r.consTrace e).verdict = r.verdict := by
  cases r <;> rfl

lemma logResults_eq (rs : List ValidationResult) (s : Bool) :
    logResults rs s = (s && rs.all (fun r => r.errors.isEmpty)) := by
  induction rs generalizing s with
  | nil => cases s <;> rfl
  | cons r rest ih =>
      have h1 : logResults (r :: rest) s = logResults rest (logStep s r) := rfl
      rw [h1, ih]
      cases h : r.errors with
      | nil => simp [logStep, h]
      | cons a l => simp [logStep, h]

lemma runLoop_master (w : World) (eo : Bool) (cid : Nat) (files : List Path) :
    ∀ s : Bool,
      (((runLoop w eo cid files s).exitCode = 0) ↔
        ((runLoop w eo cid files s).verdict = true)) ∧
      (((runLoop w eo cid files s).verdict = true) ↔
        (s = true ∧
          hasReadFailure (runLoop w eo cid files s).trace = false ∧
          hasInvokeFailure (runLoop w eo cid files s).trace = false ∧
          hasDocumentErrors (runLoop w eo cid files s).trace = false)) ∧
      ((runLoop w eo cid files s).trace.countP eventIsAlloc = 0) ∧
      (∀ c f rs, Event.validated c f rs ∈ (runLoop w eo cid files s).trace →
        c = cid) := by
  induction files with
  | nil =>
      intro s
      cases s <;>
        simp [runLoop, RunResult.exitCode, RunResult.verdict, RunResult.trace,
          hasReadFailure, hasInvokeFailure, hasDocumentErrors]
  | cons f rest ih =>
      intro s
      cases hrf : w.readFile f with
      | none =>
          cases eo with
          | true =>
              simp [runLoop, hrf, RunResult.exitCode, RunResult.verdict,
                RunResult.trace, hasReadFailure, hasInvokeFailure,
                hasDocumentErrors, eventIsReadFail, eventIsInvokeFail,
                eventHasDocErrors, eventIsAlloc]
          | false =>
              simp only [runLoop, hrf, consTrace_exitCode, consTrace_verdict,
                consTrace_trace, Bool.false_eq_true, if_false]
              refine ⟨(ih false).1, ?_, ?_, ?_⟩
              · rw [(ih false).2.1]
                simp [hasReadFailure, eventIsReadFail]
              · rw [List.countP_cons]
                simp [eventIsAlloc, (ih false).2.2.1]
              · intro c g rs hmem
                rcases List.mem_cons.mp hmem with h | h
                · cases h
                · exact (ih false).2.2.2 c g rs h
      | some contents =>
          cases hv : w.validate cid contents f with
          | error msg =>
              cases eo with
              | true =>
                  simp [runLoop, hrf, hv, RunResult.exitCode, RunResult.verdict,
                    RunResult.trace, hasReadFailure, hasInvokeFailure,
                    hasDocumentErrors, eventIsReadFail, eventIsInvokeFail,
                    eventHasDocErrors, eventIsAlloc]
              | false =>
                  simp only [runLoop, hrf, hv, consTrace_exitCode,
                    consTrace_verdict, consTrace_trace, Bool.false_eq_true,
                    if_false]
                  refine ⟨(ih false).1, ?_, ?_, ?_⟩
                  · rw [(ih false).2.1]
                    simp [hasInvokeFailure, eventIsInvokeFail]
                  · rw [List.countP_cons]
                    simp [eventIsAlloc, (ih false).2.2.1]
                  · intro c g rs hmem
                    rcases List.mem_cons.mp hmem with h | h
                    · cases h
                    · exact (ih false).2.2.2 c g rs h
          | ok results =>
              simp only [runLoop, hrf, hv, consTrace_exitCode, consTrace_verdict,
                consTrace_trace]
              refine ⟨(ih (logResults results s)).1, ?_, ?_, ?_⟩
              · rw [(ih (logResults results s)).2.1, logResults_eq]
                simp only [hasReadFailure, hasInvokeFailure, hasDocumentErrors,
                  List.any_cons, eventIsReadFail, eventIsInvokeFail,
                  eventHasDocErrors, Bool.false_or, Bool.or_eq_false_iff,
                  Bool.and_eq_true, List.all_eq_true, List.any_eq_true,
                  Bool.not_eq_true']
                constructor
                · rintro ⟨⟨hs, hall⟩, hrf2, hif2, hde2⟩
                  refine ⟨hs, hrf2, hif2, ?_, hde2⟩
                  rw [List.any_eq_false]
                  intro r hr
                  simp [hall r hr]
                · rintro ⟨hs, hrf2, hif2, hany, hde2⟩
                  refine ⟨⟨hs, ?_⟩, hrf2, hif2, hde2⟩
                  intro r hr
                  by_contra hne
                  have : (results.any fun r => !r.errors.isEmpty) = true := by
                    simp only [List.any_eq_true]
                    exact ⟨r, hr, by simp [hne]⟩
                  rw [this] at hany
                  cases hany
              · rw [List.countP_cons]
                simp [eventIsAlloc, (ih (logResults results s)).2.2.1]
              · intro c g rs hmem
                rcases List.mem_cons.mp hmem with h | h
                · cases h; rfl
                · exact (ih (logResults results s)).2.2.2 c g rs h

lemma walk_sound (dirPath : Path) (es : List FSEntry) :
    ∀ f ∈ (walkEntries dirPath es).1,
      ∃ pfx nm, f = pfx ++ [nm] ∧ hasSuffix nm (".yaml") = true := by
  induction dirPath, es using walkEntries.induct with
  | case1 dirPath => simp [walkEntries]
  | case2 dirPath nm rest hy ih =>
      intro f hf
      simp only [walkEntries, hy, if_true] at hf
      rcases List.mem_cons.mp hf with rfl | h2
      · exact ⟨dirPath, nm, rfl, hy⟩
      · exact ih f h2
  | case3 dirPath nm rest hy ih =>
      intro f hf
      simp only [walkEntries, hy, if_false] at hf
      exact ih f hf
  | case4 dirPath n m tail => simp [walkEntries]
  | case5 dirPath nm entries rest found msg heq ih =>
      intro f hf
      simp only [walkEntries, heq] at hf
      rw [heq] at ih
      exact ih f hf
  | case6 dirPath nm entries rest found heq ihInner ihRest =>
      intro f hf
      simp only [walkEntries, heq] at hf
      rw [heq] at ihInner
      rcases List.mem_append.mp hf with h2 | h2
      · exact ihInner f h2
      · exact ihRest f h2

lemma walk_clean (dirPath : Path) (es : List FSEntry) :
    cleanEntries es = true →
    walkEntries dirPath es = (specYamlFiles dirPath es, none) := by
  induction dirPath, es using walkEntries.induct with
  | case1 dirPath => intro h; simp [walkEntries, specYamlFiles]
  | case2 dirPath nm rest hy ih =>
      intro h
      simp only [cleanEntries] at h
      simp [walkEntries, specYamlFiles, hy, ih h]
  | case3 dirPath nm rest hy ih =>
      intro h
      simp only [cleanEntries] at h
      simp [walkEntries, specYamlFiles, hy, ih h]
  | case4 dirPath n m tail => intro h; simp [cleanEntries] at h
  | case5 dirPath nm entries rest found msg heq ih =>
      intro h
      simp only [cleanEntries, Bool.and_eq_true] at h
      rw [ih h.1] at heq
      simp at heq
  | case6 dirPath nm entries rest found heq ihInner ihRest =>
      intro h
      simp only [cleanEntries, Bool.and_eq_true] at h
      have hInner := ihInner h.1
      rw [hInner] at heq
      have hfound : specYamlFiles (dirPath ++ [nm]) entries = found := by
        simpa using heq
      simp [walkEntries, hInner, ihRest h.2, specYamlFiles, hfound]

lemma run_eq (w : World) (cfg : Config) (args : List Path)
    (ds : List String) (h : ¬(args = [] ∧ ds = [])) :
    run w cfg args ds =
      (runLoop w cfg.exitOnError 0 (aggregateFiles w.fs args ds).1
        (errorOrNil (aggregateFiles w.fs args ds).2).isNone).consTrace
        (Event.allocCache 0) := by
  have hc : ¬(args.length < 1 ∧ ds.length < 1) := by
    simpa [Nat.lt_one_iff, List.length_eq_zero] using h
  unfold run
  rw [if_neg hc]

lemma run_usage (w : World) (cfg : Config) :
    run w cfg [] [] = RunResult.exitedEarly 1 [] := by
  unfold run
  rw [if_pos ⟨Nat.one_pos, Nat.one_pos⟩]

lemma aggregateFiles_eq (fs : String → Option FSEntry) (args : List Path)
    (ds : List String) :
    aggregateFiles fs args ds =
      (args ++ (ds.map (fun d => (walkDirectory fs d).1)).flatten,
       ds.filterMap (fun d => (walkDirectory fs d).2)) := by
  have key : ∀ (ds : List String) (acc : List Path × List String),
      ds.foldl
        (fun acc d =>
          match walkDirectory fs d with
          | (found, none) => (acc.1 ++ found, acc.2)
          | (found, some msg) => (acc.1 ++ found, accAppend acc.2 msg))
        acc =
      (acc.1 ++ (ds.map (fun d => (walkDirectory fs d).1)).flatten,
       acc.2 ++ ds.filterMap (fun d => (walkDirectory fs d).2)) := by
    intro ds
    induction ds with
    | nil => intro acc; simp
    | cons d rest ih =>
        intro acc
        rcases hw : walkDirectory fs d with ⟨found, err⟩
        cases err with
        | none =>
            simp only [List.foldl_cons, List.map_cons, List.filterMap_cons, hw]
            rw [ih]
            simp [List.append_assoc]
        | some msg =>
            simp only [List.foldl_cons, List.map_cons, List.filterMap_cons, hw]
            rw [ih]
            simp [accAppend, List.append_assoc]
  unfold aggregateFiles
  rw [key]
  simp

lemma runLoop_validates (w : World) (eo : Bool) (cid : Nat)
    (files : List Path) :
    ∀ s : Bool,
      (∀ f ∈ files, ∃ c rs, w.readFile f = some c ∧
        w.validate cid c f = Except.ok rs) →
      ∀ f ∈ files, ∃ rs,
        Event.validated cid f rs ∈ (runLoop w eo cid files s).trace := by
  induction files with
  | nil => intro s h f hf; cases hf
  | cons g rest ih =>
      intro s h f hf
      obtain ⟨c, rs, hr, hv⟩ := h g (List.mem_cons_self g rest)
      simp only [runLoop, hr, hv, consTrace_trace]
      rcases List.mem_cons.mp hf with rfl | h2
      · exact ⟨rs, List.mem_cons_self _ _⟩
      · obtain ⟨rs2, hmem⟩ :=
          ih (logResults rs s) (fun f2 hf2 => h f2 (List.mem_cons_of_mem g hf2))
            f h2
        exact ⟨rs2, List.mem_cons_of_mem _ hmem⟩

lemma string_data_append (s t : String) : (s ++ t).data = s.data ++ t.data := by
  cases s; cases t; rfl

lemma renderList_contains (l : List String) (m : String) (h : m ∈ l) :
    ∃ s t, (renderList l).data = s ++ m.data ++ t := by
  induction l with
  | nil => cases h
  | cons a rest ih =>
      rcases List.mem_cons.mp h with rfl | h2
      · refine ⟨("\t* ").data, ("\n" ++ renderList rest).data, ?_⟩
        simp [renderList, string_data_append, List.append_assoc]
      · obtain ⟨s, t, hst⟩ := ih h2
        refine ⟨("\t* " ++ a ++ "\n").data ++ s, t, ?_⟩
        simp [renderList, string_data_append, hst, List.append_assoc]

/-- C1 (counterexample): with one unresolvable directory and no file
arguments, the run exits 1 — the verdict is false — although no document
had schema errors, no source read failed and no validator invocation
failed; the claimed three-disjunct characterisation of the final verdict
therefore does not hold as stated. -/
theorem c1_counterexample :
    (run badDirWorld plainConfig [] ["d"]).exitCode = 1 ∧
    hasDocumentErrors (run badDirWorld plainConfig [] ["d"]).trace = false ∧
    hasReadFailure (run badDirWorld plainConfig [] ["d"]).trace = false ∧
    hasInvokeFailure (run badDirWorld plainConfig [] ["d"]).trace = false := by
  refine ⟨?_, ?_, ?_, ?_⟩ <;>
    simp +decide [run, runLoop, aggregateFiles, walkDirectory, badDirWorld,
      plainConfig, errorOrNil, accAppend, RunResult.consTrace,
      RunResult.exitCode, RunResult.trace, hasDocumentErrors, hasReadFailure,
      hasInvokeFailure, eventHasDocErrors, eventIsReadFail, eventIsInvokeFail]

/-- C1 (amended): when at least one file argument or directory is
supplied, the final success verdict is false iff some document had one or
more schema errors, some source could not be read, some validation
invocation itself failed, or the resolution of the configured directories
failed; with neither supplied, the process exits 1 with the usage error
before any processing. The process exits 0 exactly when the verdict is
true. On the stdin path, where no directories are resolved, the original
three-disjunct form holds. -/
theorem c1_final_verdict (w : World) (cfg : Config) (args : List Path)
    (ds : List String) (input : String) :
    ((run w cfg args ds).exitCode = 0 ↔ (run w cfg args ds).verdict = true) ∧
    (¬(args = [] ∧ ds = []) →
      ((run w cfg args ds).verdict = true ↔
        (hasDocumentErrors (run w cfg args ds).trace = false ∧
          hasReadFailure (run w cfg args ds).trace = false ∧
          hasInvokeFailure (run w cfg args ds).trace = false ∧
          (aggregateFiles w.fs args ds).2 = []))) ∧
    (args = [] → ds = [] → run w cfg args ds = RunResult.exitedEarly 1 []) ∧
    ((runStdin w cfg input).exitCode = 0 ↔
      (runStdin w cfg input).verdict = true) ∧
    ((runStdin w cfg input).verdict = true ↔
      (hasDocumentErrors (runStdin w cfg input).trace = false ∧
        hasInvokeFailure (runStdin w cfg input).trace = false)) := by
  have hm := runLoop_master w cfg.exitOnError 0
    (aggregateFiles w.fs args ds).1
    ((errorOrNil (aggregateFiles w.fs args ds).2).isNone)
  refine ⟨?_, ?_, ?_, ?_, ?_⟩
  · by_cases hu : args = [] ∧ ds = []
    · obtain ⟨h1, h2⟩ := hu
      subst h1
      subst h2
      rw [run_usage]
      simp [RunResult.exitCode, RunResult.verdict]
    · rw [run_eq w cfg args ds hu, consTrace_exitCode, consTrace_verdict]
      exact hm.1
  · intro hu
    rw [run_eq w cfg args ds hu, consTrace_verdict, consTrace_trace, hm.2.1]
    simp only [hasDocumentErrors, hasReadFailure, hasInvokeFailure,
      List.any_cons, eventIsReadFail, eventIsInvokeFail, eventHasDocErrors,
      Bool.false_or]
    constructor
    · rintro ⟨hs, h1, h2, h3⟩
      refine ⟨h3, h1, h2, ?_⟩
      by_cases he : (aggregateFiles w.fs args ds).2.isEmpty = true
      · exact List.isEmpty_iff.mp he
      · exfalso
        unfold errorOrNil at hs
        rw [if_neg he] at hs
        cases hs
    · rintro ⟨h3, h1, h2, he⟩
      refine ⟨?_, h1, h2, h3⟩
      unfold errorOrNil
      rw [he]
      rfl
  · intro h1 h2
    subst h1
    subst h2
    exact run_usage w cfg
  · cases hv : w.validate 0 input [cfg.fileName] with
    | error msg =>
        simp [runStdin, hv, RunResult.exitCode, RunResult.verdict]
    | ok rs =>
        simp only [runStdin, hv, RunResult.exitCode, RunResult.verdict]
        cases h : logResults rs true <;> simp [h]
  · cases hv : w.validate 0 input [cfg.fileName] with
    | error msg =>
        simp [runStdin, hv, RunResult.verdict, RunResult.trace,
          hasDocumentErrors, hasInvokeFailure, eventIsInvokeFail,
          eventHasDocErrors]
    | ok rs =>
        simp only [runStdin, hv, RunResult.verdict, RunResult.trace]
        rw [logResults_eq]
        simp only [Bool.true_and, hasDocumentErrors, hasInvokeFailure,
          List.any_cons, List.any_nil, eventHasDocErrors, eventIsInvokeFail,
          Bool.or_false, Bool.false_or, and_true]
        constructor
        · intro hall
          rw [List.any_eq_false]
          intro r hr
          simp [List.all_eq_true.mp hall r hr]
        · intro hany
          rw [List.all_eq_true]
          intro r hr
          have := List.any_eq_false.mp hany r hr
          simpa using this

/-- Witness for C1 at the counterexample input: with a non-empty directory
list the amended characterisation instantiates concretely. -/
theorem c1_witness :
    (run badDirWorld plainConfig [] ["d"]).verdict = true ↔
      (hasDocumentErrors (run badDirWorld plainConfig [] ["d"]).trace
          = false ∧
        hasReadFailure (run badDirWorld plainConfig [] ["d"]).trace = false ∧
        hasInvokeFailure (run badDirWorld plainConfig [] ["d"]).trace
          = false ∧
        (aggregateFiles badDirWorld.fs [] ["d"]).2 = []) :=
  (c1_final_verdict badDirWorld plainConfig [] ["d"] "").2.1 (by simp)

/-- C8: on a run given at least one file argument or directory (otherwise
the usage error exits first, before any construction), exactly one schema
cache is constructed, before any source is processed (its construction is
the first recorded event), and every validator invocation of the run
carries that same cache — likewise on the stdin path. -/
theorem c8_single_cache (w : World) (cfg : Config) (args : List Path)
    (ds : List String) (input : String) (hs : ¬(args = [] ∧ ds = [])) :
    ((run w cfg args ds).trace.head? = some (Event.allocCache 0)) ∧
    ((run w cfg args ds).trace.countP eventIsAlloc = 1) ∧
    (∀ c f rs, Event.validated c f rs ∈ (run w cfg args ds).trace → c = 0) ∧
    ((runStdin w cfg input).trace.head? = some (Event.allocCache 0)) ∧
    ((runStdin w cfg input).trace.countP eventIsAlloc = 1) ∧
    (∀ c f rs, Event.validated c f rs ∈ (runStdin w cfg input).trace →
      c = 0) := by
  have hm := runLoop_master w cfg.exitOnError 0
    (aggregateFiles w.fs args ds).1
    ((errorOrNil (aggregateFiles w.fs args ds).2).isNone)
  refine ⟨?_, ?_, ?_, ?_, ?_, ?_⟩
  · rw [run_eq w cfg args ds hs, consTrace_trace]
    rfl
  · rw [run_eq w cfg args ds hs, consTrace_trace, List.countP_cons]
    simp [eventIsAlloc, hm.2.2.1]
  · intro c f rs hmem
    rw [run_eq w cfg args ds hs, consTrace_trace] at hmem
    rcases List.mem_cons.mp hmem with h | h
    · cases h
    · exact hm.2.2.2 c f rs h
  · cases hv : w.validate 0 input [cfg.fileName] <;>
      simp [runStdin, hv, RunResult.trace]
  · cases hv : w.validate 0 input [cfg.fileName] <;>
      simp [runStdin, hv, RunResult.trace, List.countP_cons, eventIsAlloc]
  · intro c f rs hmem
    cases hv : w.validate 0 input [cfg.fileName] with
    | error msg =>
        simp [runStdin, hv, RunResult.trace] at hmem
    | ok rs3 =>
        simp [runStdin, hv, RunResult.trace] at hmem
        exact hmem.1

/-- Witness for C8: a run over one readable, valid file records the cache
construction first and its validator invocation carries cache 0. -/
theorem c8_witness :
    (run okWorld plainConfig [["a.yaml"]] []).trace.head? =
      some (Event.allocCache 0) ∧ (0 : Nat) = 0 :=
  ⟨(c8_single_cache okWorld plainConfig [["a.yaml"]] [] "" (by simp)).1,
    (c8_single_cache okWorld plainConfig [["a.yaml"]] [] "" (by simp)).2.2.1 0
      ["a.yaml"] [sampleValid] (by decide)⟩

/-- C2: the classifier assigns every validation result exactly one of the
four categories, evaluated in priority order — a non-empty error list
yields INVALID and sets the running success flag to false; else an empty
document kind yields EMPTY_DOCUMENT; else a false validated-against-schema
flag yields SKIPPED_NO_SCHEMA; else VALID — and in every non-INVALID case
the success flag is unaffected. -/
theorem c2_classifier_categories (r : ValidationResult) (s : Bool) :
    (r.errors ≠ [] → classify r = Category.INVALID ∧ logStep s r = false) ∧
    (r.errors = [] → r.kind = "" →
      classify r = Category.EMPTY_DOCUMENT ∧ logStep s r = s) ∧
    (r.errors = [] → r.kind ≠ "" → r.validatedAgainstSchema = false →
      classify r = Category.SKIPPED_NO_SCHEMA ∧ logStep s r = s) ∧
    (r.errors = [] → r.kind ≠ "" → r.validatedAgainstSchema = true →
      classify r = Category.VALID ∧ logStep s r = s) ∧
    logResults [r] s = logStep s r := by
  refine ⟨?_, ?_, ?_, ?_, rfl⟩
  · intro h
    have hl : r.errors.length > 0 := List.length_pos.mpr h
    simp [classify, logStep, hl]
  · intro he hk
    simp [classify, logStep, he, hk]
  · intro he hk hv
    simp [classify, logStep, he, hk, hv]
  · intro he hk hv
    simp [classify, logStep, he, hk, hv]

/-- Witness for C2 at a result with one schema error. -/
theorem c2_witness :
    classify sampleInvalid = Category.INVALID ∧
    logStep true sampleInvalid = false :=
  (c2_classifier_categories sampleInvalid true).1 (by decide)

/-- C9: the running success flag is monotone under the classifier's fold —
folding an empty result list returns the incoming flag unchanged, a false
flag is never restored by any later result, and a true outcome forces both
a true incoming flag and error-free results throughout. -/
theorem c9_success_monotone :
    (∀ s : Bool, logResults [] s = s) ∧
    (∀ rs : List ValidationResult, logResults rs false = false) ∧
    (∀ (rs : List ValidationResult) (s : Bool), logResults rs s = true →
      s = true ∧ ∀ r ∈ rs, r.errors = []) := by
  refine ⟨fun s => rfl, ?_, ?_⟩
  · intro rs
    rw [logResults_eq]
    simp
  · intro rs s h
    rw [logResults_eq] at h
    simp only [Bool.and_eq_true, List.all_eq_true] at h
    refine ⟨h.1, fun r hr => ?_⟩
    have := h.2 r hr
    simpa [List.isEmpty_iff] using this

/-- Witness for C9 on a singleton error-free result list. -/
theorem c9_witness :
    true = true ∧ ∀ r ∈ [sampleValid], r.errors = [] :=
  c9_success_monotone.2.2 [sampleValid] true (by decide)

/-- C3: with the early-exit flag set, a source read failure or a validator
invocation failure terminates the run immediately with exit status 1; a
validator invocation that returns results — whatever schema errors they
carry — never triggers this termination, and the loop always continues
with the remaining sources, for either value of the flag. -/
theorem c3_early_exit_policy (w : World) (cid : Nat) (f : Path)
    (rest : List Path) (s : Bool) :
    (w.readFile f = none →
      runLoop w true cid (f :: rest) s =
        RunResult.exitedEarly 1 [Event.readFail f]) ∧
    (∀ c msg, w.readFile f = some c → w.validate cid c f = Except.error msg →
      runLoop w true cid (f :: rest) s =
        RunResult.exitedEarly 1 [Event.invokeFail f msg]) ∧
    (∀ (eo : Bool) (c : String) (rs : List ValidationResult),
      w.readFile f = some c → w.validate cid c f = Except.ok rs →
      runLoop w eo cid (f :: rest) s =
        (runLoop w eo cid rest (logResults rs s)).consTrace
          (Event.validated cid f rs)) := by
  refine ⟨?_, ?_, ?_⟩
  · intro h
    simp [runLoop, h]
  · intro c msg h hv
    simp [runLoop, h, hv]
  · intro eo c rs h hv
    simp [runLoop, h, hv]

/-- Witness for C3: an unreadable first file under the early-exit flag
stops the run before the second file. -/
theorem c3_witness :
    runLoop readFailWorld true 0 [["a.yaml"], ["b.yaml"]] true =
      RunResult.exitedEarly 1 [Event.readFail ["a.yaml"]] :=
  (c3_early_exit_policy readFailWorld 0 ["a.yaml"] [["b.yaml"]] true).1 rfl

/-- C7: on a read failure the loop records the failure as its only event
for that source — so the validator is never invoked for that file — marks
the run as failed, and applies the early-exit policy: immediate exit 1
when the flag is set, otherwise the success flag is cleared and
processing proceeds with the remaining sources. -/
theorem c7_read_failure (w : World) (eo : Bool) (cid : Nat) (f : Path)
    (rest : List Path) (s : Bool) (h : w.readFile f = none) :
    runLoop w eo cid (f :: rest) s =
      (if eo then RunResult.exitedEarly 1 [Event.readFail f]
       else (runLoop w eo cid rest false).consTrace (Event.readFail f)) ∧
    (runLoop w eo cid (f :: rest) s).verdict = false := by
  constructor
  · cases eo <;> simp [runLoop, h]
  · cases eo with
    | true => simp [runLoop, h, RunResult.verdict]
    | false =>
        simp only [runLoop, h, consTrace_verdict, Bool.false_eq_true, if_false]
        have hm := runLoop_master w false cid rest false
        rcases hvd : (runLoop w false cid rest false).verdict with _ | _
        · rfl
        · have := hm.2.1.mp hvd
          cases this.1

/-- Witness for C7: an unreadable single file without the early-exit flag
clears the verdict and contributes only the read-failure event. -/
theorem c7_witness :
    runLoop readFailWorld false 0 [["a.yaml"]] true =
      (if false then RunResult.exitedEarly 1 [Event.readFail ["a.yaml"]]
       else (runLoop readFailWorld false 0 [] false).consTrace
         (Event.readFail ["a.yaml"])) ∧
    (runLoop readFailWorld false 0 [["a.yaml"]] true).verdict = false :=
  c7_read_failure readFailWorld false 0 ["a.yaml"] [] true rfl

/-- C4: the directory list is resolved by walking each directory
independently — the resolver's output is the explicit arguments followed
by each directory's own walk result, with the combined error collecting
exactly the per-directory failures — so a failed walk never suppresses
another directory's files, a non-empty file list can coexist with a
non-empty combined error, and the orchestrator still validates every file
of the returned list even when some walks failed. -/
theorem c4_independent_walks (w : World) (cfg : Config) (args : List Path)
    (ds : List String) :
    (aggregateFiles w.fs args ds =
      (args ++ (ds.map (fun d => (walkDirectory w.fs d).1)).flatten,
       ds.filterMap (fun d => (walkDirectory w.fs d).2))) ∧
    ((∀ f ∈ (aggregateFiles w.fs args ds).1, ∃ c rs,
        w.readFile f = some c ∧ w.validate 0 c f = Except.ok rs) →
      ∀ f ∈ (aggregateFiles w.fs args ds).1, ∃ rs,
        Event.validated 0 f rs ∈ (run w cfg args ds).trace) := by
  refine ⟨aggregateFiles_eq w.fs args ds, ?_⟩
  intro h f hf
  by_cases hu : args = [] ∧ ds = []
  · exfalso
    obtain ⟨h1, h2⟩ := hu
    subst h1
    subst h2
    simp [aggregateFiles] at hf
  · rw [run_eq w cfg args ds hu, consTrace_trace]
    obtain ⟨rs, hmem⟩ :=
      runLoop_validates w cfg.exitOnError 0 (aggregateFiles w.fs args ds).1
        ((errorOrNil (aggregateFiles w.fs args ds).2).isNone) h f hf
    exact ⟨rs, List.mem_cons_of_mem _ hmem⟩

/-- Witness for C4: one resolvable and one unresolvable directory give a
non-empty file list together with a non-empty combined error, and the file
found is still validated. -/
theorem c4_witness :
    (∃ rs, Event.validated 0 ["good", "a.yaml"] rs ∈
      (run goodBadWorld plainConfig [] ["good", "bad"]).trace) ∧
    (aggregateFiles goodBadWorld.fs [] ["good", "bad"]).1 ≠ [] ∧
    (aggregateFiles goodBadWorld.fs [] ["good", "bad"]).2 ≠ [] :=
  ⟨(c4_independent_walks goodBadWorld plainConfig [] ["good", "bad"]).2
      (fun _ _ => ⟨"", [], rfl, rfl⟩) ["good", "a.yaml"]
      (by simp +decide [aggregateFiles, walkDirectory, walkEntries, accAppend,
        goodBadWorld]),
    by simp +decide [aggregateFiles, walkDirectory, walkEntries, accAppend,
      goodBadWorld],
    by simp +decide [aggregateFiles, walkDirectory, walkEntries, accAppend,
      goodBadWorld]⟩

/-- C5: a directory walk collects only paths ending in a component whose
name ends with the literal case-sensitive suffix `.yaml`; a regular file
whose name does not carry that suffix (such as `pod.yml`) contributes
nothing; and on an error-free tree the walk collects exactly the regular
files with that suffix, in traversal order. -/
theorem c5_yaml_suffix_filter :
    (∀ (es : List FSEntry) (dirPath : Path) (f : Path),
      f ∈ (walkEntries dirPath es).1 →
      ∃ pfx nm, f = pfx ++ [nm] ∧ hasSuffix nm (".yaml") = true) ∧
    (∀ (dirPath : Path) (nm : String), hasSuffix nm (".yaml") = false →
      ∀ rest, walkEntries dirPath (FSEntry.file nm :: rest) =
        walkEntries dirPath rest) ∧
    (hasSuffix ("pod.yml") (".yaml") = false) ∧
    (∀ (es : List FSEntry) (dirPath : Path), cleanEntries es = true →
      walkEntries dirPath es = (specYamlFiles dirPath es, none)) := by
  refine ⟨fun es dirPath => walk_sound dirPath es, ?_, by decide,
    fun es dirPath h => walk_clean dirPath es h⟩
  intro dirPath nm h rest
  simp [walkEntries, h]

/-- Witness for C5: a walk over one `.yaml` file yields a path whose last
component carries the suffix. -/
theorem c5_witness :
    ∃ pfx nm, (["d", "a.yaml"] : Path) = pfx ++ [nm] ∧
      hasSuffix nm (".yaml") = true :=
  c5_yaml_suffix_filter.1 [FSEntry.file ("a.yaml")] ["d"] ["d", "a.yaml"]
    (by simp +decide [walkEntries])

/-- C6: the error accumulator yields the distinguished no-error value for
zero accumulated errors; one or more accumulated errors yield exactly the
accumulated list, in accumulation order, without truncation or
deduplication, and the combined textual representation contains every
original message verbatim. -/
theorem c6_error_accumulator :
    (errorOrNil [] = none) ∧
    (∀ errs : List String, errs ≠ [] → errorOrNil errs = some errs) ∧
    (∀ (acc : List String) (es : List String),
      es.foldl accAppend acc = acc ++ es) ∧
    (∀ (l : List String) (m : String), m ∈ l →
      ∃ s t, (renderAggregate l).data = s ++ m.data ++ t) := by
  refine ⟨rfl, ?_, ?_, ?_⟩
  · intro errs h
    unfold errorOrNil
    rw [if_neg]
    simpa [List.isEmpty_iff] using h
  · intro acc es
    induction es generalizing acc with
    | nil => simp
    | cons e rest ih =>
        simp only [List.foldl_cons, ih, accAppend]
        simp
  · intro l m h
    obtain ⟨s, t, hst⟩ := renderList_contains l m h
    refine ⟨((toString l.length) ++ (" error(s) occurred:\n")).data ++ s, t, ?_⟩
    simp [renderAggregate, string_data_append, hst, List.append_assoc]

/-- Witness for C6 on two accumulated errors. -/
theorem c6_witness :
    errorOrNil ["e1", "e2"] = some ["e1", "e2"] ∧
    ∃ s t, (renderAggregate ["e1", "e2"]).data = s ++ ("e2").data ++ t :=
  ⟨c6_error_accumulator.2.1 ["e1", "e2"] (by decide),
    c6_error_accumulator.2.2.2 ["e1", "e2"] ("e2") (by decide)⟩

/-- C10: within one directory's walk, the first erroring entry aborts the
remaining traversal of that walk — files collected before the error are
kept, entries after it (including qualifying `.yaml` files) are never
visited, an error inside a nested subdirectory likewise aborts the
remaining entries of its parent — while the file lists of the other
configured directories are unaffected. -/
theorem c10_walk_abort (dirPath : Path) (pre post : List FSEntry)
    (n msg : String) (found : List Path)
    (h : walkEntries dirPath pre = (found, none)) :
    (walkEntries dirPath (pre ++ FSEntry.badEntry n msg :: post) =
      (found, some msg)) ∧
    (∀ (nm : String) (inner rest : List FSEntry) (fI : List Path)
        (m : String),
      walkEntries (dirPath ++ [nm]) inner = (fI, some m) →
      walkEntries dirPath (FSEntry.dir nm inner :: rest) = (fI, some m)) ∧
    (∀ (fs : String → Option FSEntry) (args : List Path) (ds : List String),
      (aggregateFiles fs args ds).1 =
        args ++ (ds.map (fun d => (walkDirectory fs d).1)).flatten) := by
  refine ⟨?_, ?_, ?_⟩
  · induction pre generalizing found with
    | nil =>
        simp only [walkEntries] at h
        have hf : found = [] := by
          have := congrArg Prod.fst h
          simpa using this.symm
        subst hf
        simp [walkEntries]
    | cons e pre ih =>
        cases e with
        | file nm =>
            rcases hr : walkEntries dirPath pre with ⟨found2, err2⟩
            by_cases hy : hasSuffix nm (".yaml") = true
            · simp only [walkEntries, hy, if_true, hr] at h
              have h1 : (dirPath ++ [nm]) :: found2 = found :=
                congrArg Prod.fst h
              have h2 : err2 = none := congrArg Prod.snd h
              subst h2
              have := ih found2 hr
              simp only [List.cons_append, walkEntries, hy, if_true, this]
              rw [← h1]
            · have hy2 : hasSuffix nm (".yaml") = false :=
                Bool.not_eq_true _ ▸ Bool.eq_false_iff.mpr hy
              simp only [walkEntries, hy2, Bool.false_eq_true, if_false,
                hr] at h
              have h2 : err2 = none := congrArg Prod.snd h
              subst h2
              have h1 : found2 = found := by
                have := congrArg Prod.fst h
                simpa using this
              subst h1
              have := ih found2 hr
              simp only [List.cons_append, walkEntries, hy2,
                Bool.false_eq_true, if_false, this]
        | badEntry n2 m2 =>
            simp only [walkEntries] at h
            have := congrArg Prod.snd h
            simp at this
        | dir nm entries =>
            rcases hin : walkEntries (dirPath ++ [nm]) entries with ⟨fI, errI⟩
            cases errI with
            | some m =>
                simp only [walkEntries, hin] at h
                have := congrArg Prod.snd h
                simp at this
            | none =>
                rcases hr : walkEntries dirPath pre with ⟨found2, err2⟩
                simp only [walkEntries, hin, hr] at h
                have h2 : err2 = none := congrArg Prod.snd h
                subst h2
                have h1 : fI ++ found2 = found := congrArg Prod.fst h
                have := ih found2 hr
                simp only [List.cons_append, walkEntries, hin, this]
                rw [← h1]
  · intro nm inner rest fI m hin
    simp [walkEntries, hin]
  · intro fs args ds
    rw [aggregateFiles_eq]

/-- Witness for C10: one file before an erroring entry is kept, the file
after it is dropped. -/
theorem c10_witness :
    walkEntries ["d"]
        ([FSEntry.file ("a.yaml")] ++
          FSEntry.badEntry ("x") ("boom") :: [FSEntry.file ("b.yaml")]) =
      ([["d", "a.yaml"]], some ("boom")) :=
  (c10_walk_abort ["d"] [FSEntry.file ("a.yaml")] [FSEntry.file ("b.yaml")]
    ("x") ("boom") [["d", "a.yaml"]] (by simp +decide [walkEntries])).1

end Kubeval
